import Mathlib

/-!
Verification of hermannm/wrap: a Go library that renders trees of wrapped
errors as indented bullet lists.

The embedding models Go error values shallowly:
- `Err` is the universe of error values relevant to this library: the
  library's own wrapper types from `wrap.go` (`wrappedError`,
  `wrappedErrors`, and their attribute-carrying variants, plus
  `errorWithAttrs`), foreign errors that implement `Unwrap() error` or
  `Unwrap() []error` without a `WrappingMessage()` method, and plain opaque
  errors. A Go `nil` error is `Option.none` in cause positions
  (`Option Err`), matching Go's nilable `error` interface type.
- Strings are modelled at the character level (Go indexes bytes, but the
  separator characters involved, `:`, space and newline, are one byte in
  UTF-8, so the character-level model agrees with the byte-level code on
  the splits it performs).
- A Go panic while building the error string (calling `Error()` on a nil
  interface value) is modelled as `Option.none`: the render functions
  return `Option String`, `none` meaning the call panics instead of
  returning a string.
-/

namespace Wrap

/-! ## Attribute parser (internal/attrs.go: ParseAttrs) -/

/-- A Go `any` value passed in a variadic attribute list: a string, an int,
a pre-built `slog.Attr` (key plus value), or some other opaque value. -/
inductive AnyV where
  | str (s : String)
  | int (n : Int)
  | attr (key : String) (value : AnyV)
  | other (id : Nat)
deriving DecidableEq, Repr

/-- Same key as the one the standard library uses for attributes that
failed to parse. -/
def badKey : String := "!BADKEY"

/-- `ParseAttrs` from `internal` package: scans the heterogeneous list left
to right; a pre-built attr is taken verbatim, a string pairs with the next
item as key/value, a trailing string or a non-string item degrades to the
`!BADKEY` sentinel key. -/
def ParseAttrs : List AnyV → List (String × AnyV)
  | [] => []
  | .attr k v :: rest => (k, v) :: ParseAttrs rest
  | .str s :: [] => (badKey, .str s) :: ParseAttrs []
  | .str s :: next :: rest => (s, next) :: ParseAttrs rest
  | .int n :: rest => (badKey, .int n) :: ParseAttrs rest
  | .other i :: rest => (badKey, .other i) :: ParseAttrs rest

/-- A parsed `slog.Attr`: key plus value. -/
abbrev SlogAttr := String × AnyV

/-! ## Error values (wrap.go, ctxwrap.go) -/

/-- Go error values in the universe this library manipulates. Causes have
type `Option Err`: `none` is Go's nil error. -/
inductive Err where
  /-- `wrap.Error` / `wrap.Errorf` result: wraps one cause with a message;
  implements `Unwrap() error` and `WrappingMessage() string`. -/
  | wrappedError (wrapped : Option Err) (message : String)
  /-- `wrap.ErrorWithAttrs` result: same, carrying log attributes. -/
  | wrappedErrorWithAttrs (wrapped : Option Err) (message : String) (attrs : List SlogAttr)
  /-- `wrap.Errors` / `wrap.Errorsf` result: wraps a list of causes;
  implements `Unwrap() []error` and `WrappingMessage() string`. -/
  | wrappedErrors (wrapped : List (Option Err)) (message : String)
  /-- `wrap.ErrorsWithAttrs` result: same, carrying log attributes. -/
  | wrappedErrorsWithAttrs (wrapped : List (Option Err)) (message : String) (attrs : List SlogAttr)
  /-- `wrap.NewErrorWithAttrs` result: message plus attributes, no cause. -/
  | errorWithAttrs (message : String) (attrs : List SlogAttr)
  /-- A foreign error implementing `Unwrap() error` but not
  `WrappingMessage()`; its `Error()` returns the stored text. -/
  | foreignSingle (text : String) (wrapped : Option Err)
  /-- A foreign error implementing `Unwrap() []error` but not
  `WrappingMessage()`. -/
  | foreignMulti (text : String) (wrapped : List (Option Err))
  /-- A plain foreign error: only `Error()`. -/
  | plain (text : String)

/-! ## String helpers (internal/errors.go) -/

/-- `writeIndent`: writes `"  "` `indent - 1` times. -/
def writeIndent (indent : Nat) : String :=
  String.join (List.replicate (indent - 1) "  ")

/-- `writeListItemPrefix`: a newline, the indent, then the `"- "` bullet. -/
def writeListItemMarker (indent : Nat) : String :=
  "\n" ++ writeIndent indent ++ "- "

/-- Core loop of `writeErrorMessage`: after every newline character of the
message, insert the continuation indent `sep`. -/
def indentNewlines : List Char → List Char → List Char
  | [], _ => []
  | c :: rest, sep =>
    if c = '\n' then c :: (sep ++ indentNewlines rest sep)
    else c :: indentNewlines rest sep

/-- `writeErrorMessage`: writes the message, indenting each line after an
embedded newline one level deeper than the list bullet (the Go code
increments `indent` before calling `writeIndent`). -/
def writeErrorMessage (message : String) (indent : Nat) : String :=
  String.mk (indentNewlines message.data (writeIndent (indent + 1)).data)

/-- `strings.HasSuffix(s, suffix)`: length check plus equality of the tail
slice. -/
def hasSuffix (s suffix : String) : Bool :=
  decide (suffix.length ≤ s.length) &&
    (s.data.drop (s.length - suffix.length) == suffix.data)

/-- `wrappingMessageEndIndex` from `unwrapError`: full length minus the
unwrapped message's length minus 2 (reserved for the `": "` separator).
Go `int` arithmetic, so this may be negative. -/
def wrappingMessageEndIndex (t childText : String) : Int :=
  (t.length : Int) - (childText.length : Int) - 2

/-- The condition under which `unwrapError` splits a foreign error's
message: positive end index, the full message ends with the unwrapped
message, a colon sits at the end index and a space or newline follows. -/
def hasWrappingSeparator (t childText : String) : Bool :=
  let cut := wrappingMessageEndIndex t childText
  decide (0 < cut) && hasSuffix t childText &&
    t.data.get? cut.toNat == some ':' &&
    (t.data.get? (cut.toNat + 1) == some ' ' ||
      t.data.get? (cut.toNat + 1) == some '\n')

/-- The wrapping message recovered by the split: `errMessage[0:cut]`. -/
def wrappingMessagePart (t childText : String) : String :=
  String.mk (t.data.take (wrappingMessageEndIndex t childText).toNat)

/-! ## The renderer (internal/errors.go)

`errText e` is `e.Error()`. `writeErrorListItem` is the builder method of
the same name, returning the text it appends; its argument is `Option Err`
because the Go parameter is a nilable `error`. `writeErrorItems ws ind p`
is the loop body of `writeErrorList` with the `partOfList` flag `p`
(`len(wrappedErrs) > 1`) already computed. `none` is a panic: rendering a
nil error reaches the type switch's default case and calls `Error()` on a
nil interface. The classification logic of `unwrapError` / `unwrapErrors`
is inlined at each constructor (the library types answer the
`hasWrappingMessage` probe with their stored message; the foreign single
wrapper goes through the colon heuristic); `unwrapErrorM` and
`unwrapErrorsM` below restate it standalone and are proved to agree. -/

mutual

/-- The `Error()` method of each error value: the library wrappers build
their string via `BuildWrappedErrorString` / `BuildWrappedErrorsString`
(message, then list items at indent 1); foreign errors return their stored
text. -/
def errText : Err → Option String
  | .wrappedError w m =>
    (writeErrorListItem w 1 false).map (fun rest => m ++ rest)
  | .wrappedErrorWithAttrs w m _ =>
    (writeErrorListItem w 1 false).map (fun rest => m ++ rest)
  | .wrappedErrors ws m =>
    (writeErrorItems ws 1 (decide (ws.length > 1))).map (fun rest => m ++ rest)
  | .wrappedErrorsWithAttrs ws m _ =>
    (writeErrorItems ws 1 (decide (ws.length > 1))).map (fun rest => m ++ rest)
  | .errorWithAttrs m _ => some m
  | .foreignSingle t _ => some t
  | .foreignMulti t _ => some t
  | .plain t => some t

/-- `writeErrorListItem(wrappedErr, indent, partOfList)`: bullet marker,
then the type switch on the wrapped error. -/
def writeErrorListItem : Option Err → Nat → Bool → Option String
  | none, _, _ => none
  | some (.wrappedError w m), ind, part =>
    (writeErrorListItem w (if part then ind + 1 else ind) false).map
      (fun rest => writeListItemMarker ind ++ writeErrorMessage m ind ++ rest)
  | some (.wrappedErrorWithAttrs w m _), ind, part =>
    (writeErrorListItem w (if part then ind + 1 else ind) false).map
      (fun rest => writeListItemMarker ind ++ writeErrorMessage m ind ++ rest)
  | some (.foreignSingle t none), ind, _ =>
    some (writeListItemMarker ind ++ writeErrorMessage t ind)
  | some (.foreignSingle t (some c)), ind, part =>
    match errText c with
    | none => none
    | some childText =>
      if hasWrappingSeparator t childText then
        (writeErrorListItem (some c) (if part then ind + 1 else ind) false).map
          (fun rest => writeListItemMarker ind ++
            writeErrorMessage (wrappingMessagePart t childText) ind ++ rest)
      else some (writeListItemMarker ind ++ writeErrorMessage t ind)
  | some (.wrappedErrors ws m), ind, part =>
    (writeErrorItems ws (if part || decide (ws.length > 1) then ind + 1 else ind)
        (decide (ws.length > 1))).map
      (fun rest => writeListItemMarker ind ++ writeErrorMessage m ind ++ rest)
  | some (.wrappedErrorsWithAttrs ws m _), ind, part =>
    (writeErrorItems ws (if part || decide (ws.length > 1) then ind + 1 else ind)
        (decide (ws.length > 1))).map
      (fun rest => writeListItemMarker ind ++ writeErrorMessage m ind ++ rest)
  | some (.foreignMulti t _), ind, _ =>
    some (writeListItemMarker ind ++ writeErrorMessage t ind)
  | some (.errorWithAttrs m _), ind, _ =>
    some (writeListItemMarker ind ++ writeErrorMessage m ind)
  | some (.plain t), ind, _ =>
    some (writeListItemMarker ind ++ writeErrorMessage t ind)

/-- The loop of `writeErrorList`, with `partOfList` precomputed from the
original list's length. -/
def writeErrorItems : List (Option Err) → Nat → Bool → Option String
  | [], _, _ => some ""
  | w :: rest, ind, part =>
    match writeErrorListItem w ind part, writeErrorItems rest ind part with
    | some s, some t => some (s ++ t)
    | _, _ => none

end

/-- `writeErrorList(wrappedErrs, indent)`: each entry is rendered as a list
item, `partOfList` true when the list has more than one entry. -/
def writeErrorList (wrappedErrs : List (Option Err)) (indent : Nat) : Option String :=
  writeErrorItems wrappedErrs indent (decide (wrappedErrs.length > 1))

/-- `BuildWrappedErrorString`: the wrapping message, then the single cause
as a list item at indent 1. -/
def BuildWrappedErrorString (wrapped : Option Err) (message : String) : Option String :=
  (writeErrorListItem wrapped 1 false).map (fun rest => message ++ rest)

/-- `BuildWrappedErrorsString`: the wrapping message, then the cause list
at indent 1. -/
def BuildWrappedErrorsString (wrapped : List (Option Err)) (message : String) :
    Option String :=
  (writeErrorList wrapped 1).map (fun rest => message ++ rest)

/-- `unwrapError`, standalone: defined on values implementing
`Unwrap() error` (the two library single wrappers and the foreign single
wrapper); `none` elsewhere, and also when the unwrapped error's own
`Error()` call panics. Returns the unwrapped error, the message to
display, and whether that message is a wrapping message. -/
def unwrapErrorM : Err → Option (Option Err × String × Bool)
  | .wrappedError w m => some (w, m, true)
  | .wrappedErrorWithAttrs w m _ => some (w, m, true)
  | .foreignSingle t none => some (none, t, false)
  | .foreignSingle t (some c) =>
    match errText c with
    | none => none
    | some childText =>
      if hasWrappingSeparator t childText then
        some (some c, wrappingMessagePart t childText, true)
      else some (some c, t, false)
  | _ => none

/-- `unwrapErrors`, standalone: defined on values implementing
`Unwrap() []error`; the library multi wrappers answer the wrapping-message
probe, a foreign multi-error does not. -/
def unwrapErrorsM : Err → Option (List (Option Err) × String × Bool)
  | .wrappedErrors ws m => some (ws, m, true)
  | .wrappedErrorsWithAttrs ws m _ => some (ws, m, true)
  | .foreignMulti t ws => some (ws, t, false)
  | _ => none

/-! ## Nil-freedom

`noNil e` states that rendering `e` never reaches a nil error: the library
wrappers' causes are non-nil, recursively. A foreign single wrapper whose
`Unwrap()` returns nil is fine (the code checks for nil before using it),
and a foreign multi-error's causes are never rendered at all (its label is
not a wrapping message), so they are unconstrained. -/

mutual

def noNil : Err → Bool
  | .wrappedError w _ => noNilOpt w
  | .wrappedErrorWithAttrs w _ _ => noNilOpt w
  | .wrappedErrors ws _ => noNilList ws
  | .wrappedErrorsWithAttrs ws _ _ => noNilList ws
  | .errorWithAttrs _ _ => true
  | .foreignSingle _ none => true
  | .foreignSingle _ (some c) => noNil c
  | .foreignMulti _ _ => true
  | .plain _ => true

def noNilOpt : Option Err → Bool
  | none => false
  | some e => noNil e

def noNilList : List (Option Err) → Bool
  | [] => true
  | w :: rest => noNilOpt w && noNilList rest

end

/-! ## Tree size and a fuel-bounded renderer

For the termination claim: `itemFuel` / `itemsFuel` / `errTextFuel` are
the render functions with an explicit recursion budget, returning `none`
(in the outer `Option`) when the budget is exhausted. The equivalence
theorem shows a budget of the tree's node count is always enough, i.e. the
recursion of the renderer is bounded by the size of the input tree. -/

mutual

def sizeE : Err → Nat
  | .wrappedError w _ => 1 + sizeO w
  | .wrappedErrorWithAttrs w _ _ => 1 + sizeO w
  | .wrappedErrors ws _ => 1 + sizeL ws
  | .wrappedErrorsWithAttrs ws _ _ => 1 + sizeL ws
  | .errorWithAttrs _ _ => 1
  | .foreignSingle _ w => 1 + sizeO w
  | .foreignMulti _ _ => 1
  | .plain _ => 1

def sizeO : Option Err → Nat
  | none => 1
  | some e => 1 + sizeE e

def sizeL : List (Option Err) → Nat
  | [] => 1
  | w :: rest => 1 + sizeO w + sizeL rest

end

mutual

def errTextFuel : Nat → Err → Option (Option String)
  | 0, _ => none
  | fuel + 1, .wrappedError w m =>
    (itemFuel fuel w 1 false).map (Option.map (fun rest => m ++ rest))
  | fuel + 1, .wrappedErrorWithAttrs w m _ =>
    (itemFuel fuel w 1 false).map (Option.map (fun rest => m ++ rest))
  | fuel + 1, .wrappedErrors ws m =>
    (itemsFuel fuel ws 1 (decide (ws.length > 1))).map
      (Option.map (fun rest => m ++ rest))
  | fuel + 1, .wrappedErrorsWithAttrs ws m _ =>
    (itemsFuel fuel ws 1 (decide (ws.length > 1))).map
      (Option.map (fun rest => m ++ rest))
  | _ + 1, .errorWithAttrs m _ => some (some m)
  | _ + 1, .foreignSingle t _ => some (some t)
  | _ + 1, .foreignMulti t _ => some (some t)
  | _ + 1, .plain t => some (some t)

def itemFuel : Nat → Option Err → Nat → Bool → Option (Option String)
  | 0, _, _, _ => none
  | _ + 1, none, _, _ => some none
  | fuel + 1, some (.wrappedError w m), ind, part =>
    (itemFuel fuel w (if part then ind + 1 else ind) false).map
      (Option.map (fun rest =>
        writeListItemMarker ind ++ writeErrorMessage m ind ++ rest))
  | fuel + 1, some (.wrappedErrorWithAttrs w m _), ind, part =>
    (itemFuel fuel w (if part then ind + 1 else ind) false).map
      (Option.map (fun rest =>
        writeListItemMarker ind ++ writeErrorMessage m ind ++ rest))
  | _ + 1, some (.foreignSingle t none), ind, _ =>
    some (some (writeListItemMarker ind ++ writeErrorMessage t ind))
  | fuel + 1, some (.foreignSingle t (some c)), ind, part =>
    match errTextFuel fuel c with
    | none => none
    | some none => some none
    | some (some childText) =>
      if hasWrappingSeparator t childText then
        (itemFuel fuel (some c) (if part then ind + 1 else ind) false).map
          (Option.map (fun rest => writeListItemMarker ind ++
            writeErrorMessage (wrappingMessagePart t childText) ind ++ rest))
      else some (some (writeListItemMarker ind ++ writeErrorMessage t ind))
  | fuel + 1, some (.wrappedErrors ws m), ind, part =>
    (itemsFuel fuel ws (if part || decide (ws.length > 1) then ind + 1 else ind)
        (decide (ws.length > 1))).map
      (Option.map (fun rest =>
        writeListItemMarker ind ++ writeErrorMessage m ind ++ rest))
  | fuel + 1, some (.wrappedErrorsWithAttrs ws m _), ind, part =>
    (itemsFuel fuel ws (if part || decide (ws.length > 1) then ind + 1 else ind)
        (decide (ws.length > 1))).map
      (Option.map (fun rest =>
        writeListItemMarker ind ++ writeErrorMessage m ind ++ rest))
  | _ + 1, some (.foreignMulti t _), ind, _ =>
    some (some (writeListItemMarker ind ++ writeErrorMessage t ind))
  | _ + 1, some (.errorWithAttrs m _), ind, _ =>
    some (some (writeListItemMarker ind ++ writeErrorMessage m ind))
  | _ + 1, some (.plain t), ind, _ =>
    some (some (writeListItemMarker ind ++ writeErrorMessage t ind))

def itemsFuel : Nat → List (Option Err) → Nat → Bool → Option (Option String)
  | 0, _, _, _ => none
  | _ + 1, [], _, _ => some (some "")
  | fuel + 1, w :: rest, ind, part =>
    match itemFuel fuel w ind part, itemsFuel fuel rest ind part with
    | some r1, some r2 =>
      some (match r1, r2 with
        | some s, some t => some (s ++ t)
        | _, _ => none)
    | _, _ => none

end

/-! ## Basic lemmas -/

theorem string_length_data (s : String) : s.length = s.data.length := rfl

theorem hasSuffix_iff (s suffix : String) :
    hasSuffix s suffix = true ↔ suffix.data <:+ s.data := by
  unfold hasSuffix
  simp only [Bool.and_eq_true, decide_eq_true_eq, beq_iff_eq]
  constructor
  · rintro ⟨hle, hdrop⟩
    exact ⟨s.data.take (s.length - suffix.length), by
      conv_rhs => rw [← List.take_append_drop (s.length - suffix.length) s.data]
      rw [hdrop]⟩
  · rintro ⟨pre, hp⟩
    have hlen : s.length = pre.length + suffix.length := by
      rw [string_length_data, string_length_data, ← hp, List.length_append]
    constructor
    · omega
    · have hd : s.length - suffix.length = pre.length := by omega
      rw [hd, ← hp, List.drop_left]

theorem errText_wrappedError (w : Option Err) (m : String) :
    errText (.wrappedError w m) = BuildWrappedErrorString w m := rfl

theorem errText_wrappedErrorWithAttrs (w : Option Err) (m : String) (attrs : List SlogAttr) :
    errText (.wrappedErrorWithAttrs w m attrs) = BuildWrappedErrorString w m := rfl

theorem errText_wrappedErrors (ws : List (Option Err)) (m : String) :
    errText (.wrappedErrors ws m) = BuildWrappedErrorsString ws m := rfl

theorem errText_wrappedErrorsWithAttrs (ws : List (Option Err)) (m : String)
    (attrs : List SlogAttr) :
    errText (.wrappedErrorsWithAttrs ws m attrs) = BuildWrappedErrorsString ws m := rfl

/-- The behaviour of `writeErrorListItem` on any value implementing
`Unwrap() error` factors through `unwrapErrorM`, exactly as the Go
`writeErrorListItem` calls `unwrapError`: write the marker and the
message, and recurse into the cause only when the message is a wrapping
message. -/
theorem writeErrorListItem_of_unwrapError (e : Err) (w : Option Err) (m : String)
    (flag : Bool) (ind : Nat) (part : Bool) (h : unwrapErrorM e = some (w, m, flag)) :
    writeErrorListItem (some e) ind part =
      if flag then
        (writeErrorListItem w (if part then ind + 1 else ind) false).map
          (fun rest => writeListItemMarker ind ++ writeErrorMessage m ind ++ rest)
      else some (writeListItemMarker ind ++ writeErrorMessage m ind) := by
  cases e with
  | wrappedError w' m' =>
    simp only [unwrapErrorM, Option.some.injEq, Prod.mk.injEq] at h
    obtain ⟨rfl, rfl, rfl⟩ := h
    simp [writeErrorListItem]
  | wrappedErrorWithAttrs w' m' attrs =>
    simp only [unwrapErrorM, Option.some.injEq, Prod.mk.injEq] at h
    obtain ⟨rfl, rfl, rfl⟩ := h
    simp [writeErrorListItem]
  | foreignSingle t wopt =>
    cases wopt with
    | none =>
      simp only [unwrapErrorM, Option.some.injEq, Prod.mk.injEq] at h
      obtain ⟨rfl, rfl, rfl⟩ := h
      simp [writeErrorListItem]
    | some c =>
      cases hc : errText c with
      | none => simp [unwrapErrorM, hc] at h
      | some ct =>
        by_cases hsep : hasWrappingSeparator t ct
        · simp only [unwrapErrorM, hc, hsep, if_true, Option.some.injEq,
            Prod.mk.injEq] at h
          obtain ⟨rfl, rfl, rfl⟩ := h
          simp [writeErrorListItem, hc, hsep]
        · simp only [unwrapErrorM, hc, hsep, if_false, Option.some.injEq,
            Prod.mk.injEq] at h
          obtain ⟨rfl, rfl, rfl⟩ := h
          simp [writeErrorListItem, hc, hsep]
  | wrappedErrors ws' m' => simp [unwrapErrorM] at h
  | wrappedErrorsWithAttrs ws' m' attrs => simp [unwrapErrorM] at h
  | errorWithAttrs m' attrs => simp [unwrapErrorM] at h
  | foreignMulti t ws' => simp [unwrapErrorM] at h
  | plain t => simp [unwrapErrorM] at h

/-- The behaviour of `writeErrorListItem` on any value implementing
`Unwrap() []error` factors through `unwrapErrorsM`, exactly as the Go
`writeErrorListItem` calls `unwrapErrors`. -/
theorem writeErrorListItem_of_unwrapErrors (e : Err) (ws : List (Option Err)) (m : String)
    (flag : Bool) (ind : Nat) (part : Bool) (h : unwrapErrorsM e = some (ws, m, flag)) :
    writeErrorListItem (some e) ind part =
      if flag then
        (writeErrorItems ws (if part || decide (ws.length > 1) then ind + 1 else ind)
            (decide (ws.length > 1))).map
          (fun rest => writeListItemMarker ind ++ writeErrorMessage m ind ++ rest)
      else some (writeListItemMarker ind ++ writeErrorMessage m ind) := by
  cases e with
  | wrappedErrors ws' m' =>
    simp only [unwrapErrorsM, Option.some.injEq, Prod.mk.injEq] at h
    obtain ⟨rfl, rfl, rfl⟩ := h
    simp [writeErrorListItem]
  | wrappedErrorsWithAttrs ws' m' attrs =>
    simp only [unwrapErrorsM, Option.some.injEq, Prod.mk.injEq] at h
    obtain ⟨rfl, rfl, rfl⟩ := h
    simp [writeErrorListItem]
  | foreignMulti t ws' =>
    simp only [unwrapErrorsM, Option.some.injEq, Prod.mk.injEq] at h
    obtain ⟨rfl, rfl, rfl⟩ := h
    simp [writeErrorListItem]
  | wrappedError w' m' => simp [unwrapErrorsM] at h
  | wrappedErrorWithAttrs w' m' attrs => simp [unwrapErrorsM] at h
  | errorWithAttrs m' attrs => simp [unwrapErrorsM] at h
  | foreignSingle t w' => simp [unwrapErrorsM] at h
  | plain t => simp [unwrapErrorsM] at h

/-- Every rendered list item starts with the bullet marker of its indent
level. -/
theorem writeErrorListItem_marker (w : Option Err) (ind : Nat) (part : Bool) (s : String)
    (h : writeErrorListItem w ind part = some s) :
    ∃ body, s = writeListItemMarker ind ++ body := by
  cases w with
  | none => simp [writeErrorListItem] at h
  | some e =>
    cases e with
    | wrappedError w' m' =>
      simp only [writeErrorListItem, Option.map_eq_some'] at h
      obtain ⟨rest, -, rfl⟩ := h
      exact ⟨writeErrorMessage m' ind ++ rest, by rw [String.append_assoc]⟩
    | wrappedErrorWithAttrs w' m' attrs =>
      simp only [writeErrorListItem, Option.map_eq_some'] at h
      obtain ⟨rest, -, rfl⟩ := h
      exact ⟨writeErrorMessage m' ind ++ rest, by rw [String.append_assoc]⟩
    | foreignSingle t wopt =>
      cases wopt with
      | none =>
        simp only [writeErrorListItem, Option.some.injEq] at h
        exact ⟨writeErrorMessage t ind, h.symm⟩
      | some c =>
        cases hc : errText c with
        | none => simp [writeErrorListItem, hc] at h
        | some ct =>
          by_cases hsep : hasWrappingSeparator t ct
          · simp only [writeErrorListItem, hc, hsep, if_true, Option.map_eq_some'] at h
            obtain ⟨rest, -, rfl⟩ := h
            exact ⟨writeErrorMessage (wrappingMessagePart t ct) ind ++ rest, by
              rw [String.append_assoc]⟩
          · simp only [writeErrorListItem, hc, hsep, if_false, Bool.false_eq_true,
              Option.some.injEq] at h
            exact ⟨writeErrorMessage t ind, h.symm⟩
    | wrappedErrors ws m' =>
      simp only [writeErrorListItem, Option.map_eq_some'] at h
      obtain ⟨rest, -, rfl⟩ := h
      exact ⟨writeErrorMessage m' ind ++ rest, by rw [String.append_assoc]⟩
    | wrappedErrorsWithAttrs ws m' attrs =>
      simp only [writeErrorListItem, Option.map_eq_some'] at h
      obtain ⟨rest, -, rfl⟩ := h
      exact ⟨writeErrorMessage m' ind ++ rest, by rw [String.append_assoc]⟩
    | foreignMulti t ws =>
      simp only [writeErrorListItem, Option.some.injEq] at h
      exact ⟨writeErrorMessage t ind, h.symm⟩
    | errorWithAttrs m' attrs =>
      simp only [writeErrorListItem, Option.some.injEq] at h
      exact ⟨writeErrorMessage m' ind, h.symm⟩
    | plain t =>
      simp only [writeErrorListItem, Option.some.injEq] at h
      exact ⟨writeErrorMessage t ind, h.symm⟩

theorem indentNewlines_nil_sep (l : List Char) : indentNewlines l [] = l := by
  induction l with
  | nil => rfl
  | cons c rest ih => by_cases hc : c = '\n' <;> simp [indentNewlines, hc, ih]

/-- The Go heuristic condition, restated in terms of the spec's wording:
positive cut, suffix relation as list decomposition, a colon at the cut
and a space or newline after it. -/
theorem hasWrappingSeparator_iff (t ct : String) :
    hasWrappingSeparator t ct = true ↔
      (ct.length + 2 < t.length ∧ ct.data <:+ t.data ∧
        t.data.get? (t.length - ct.length - 2) = some ':' ∧
        (t.data.get? (t.length - ct.length - 1) = some ' ' ∨
          t.data.get? (t.length - ct.length - 1) = some '\n')) := by
  unfold hasWrappingSeparator wrappingMessageEndIndex
  simp only [Bool.and_eq_true, Bool.or_eq_true, decide_eq_true_eq, beq_iff_eq,
    hasSuffix_iff]
  constructor
  · rintro ⟨⟨⟨h1, h2⟩, h3⟩, h4⟩
    have hlt : ct.length + 2 < t.length := by omega
    have htn : ((t.length : Int) - ct.length - 2).toNat = t.length - ct.length - 2 := by
      omega
    have htn1 : ((t.length : Int) - ct.length - 2).toNat + 1 = t.length - ct.length - 1 := by
      omega
    rw [htn] at h3
    rw [htn1] at h4
    exact ⟨hlt, h2, h3, h4⟩
  · rintro ⟨h1, h2, h3, h4⟩
    have h0 : (0 : Int) < (t.length : Int) - ct.length - 2 := by omega
    have htn : ((t.length : Int) - ct.length - 2).toNat = t.length - ct.length - 2 := by
      omega
    have htn1 : ((t.length : Int) - ct.length - 2).toNat + 1 = t.length - ct.length - 1 := by
      omega
    exact ⟨⟨⟨h0, h2⟩, by rw [htn]; exact h3⟩, by rw [htn1]; exact h4⟩

/-! ## Claim theorems -/

/-- C1: for a foreign single-cause error with full message `t` whose cause's
full message is `ct`, the classifier returns label `t[0:cut]` with
`labelIsWrappingMessage = true` exactly when `cut > 0`, `t` ends with `ct`,
the character at `cut` is a colon, and a space or newline follows;
otherwise it returns the full message with the flag false. The second
conjunct replays the spec scenario: four nested conventional
`"prefix: cause"` wraps down to `"the underlying error"`, wrapped once
more by the library, recover all four labels as separate list lines. -/
theorem unwrapError_colon_heuristic :
    (∀ (t ct : String) (c : Err), errText c = some ct →
      unwrapErrorM (.foreignSingle t (some c)) =
        if ct.length + 2 < t.length ∧ ct.data <:+ t.data ∧
            t.data.get? (t.length - ct.length - 2) = some ':' ∧
            (t.data.get? (t.length - ct.length - 1) = some ' ' ∨
              t.data.get? (t.length - ct.length - 1) = some '\n')
        then some (some c, String.mk (t.data.take (t.length - ct.length - 2)), true)
        else some (some c, t, false)) ∧
    errText (.wrappedError (some (.foreignSingle
        "an error occurred: error string with : in the middle: something went wrong: the underlying error"
        (some (.foreignSingle
          "error string with : in the middle: something went wrong: the underlying error"
          (some (.foreignSingle "something went wrong: the underlying error"
            (some (.plain "the underlying error"))))))))
      "wrapped error") =
      some "wrapped error\n- an error occurred\n- error string with : in the middle\n- something went wrong\n- the underlying error" := by
  constructor
  · intro t ct c hc
    by_cases hcond : (ct.length + 2 < t.length ∧ ct.data <:+ t.data ∧
        t.data.get? (t.length - ct.length - 2) = some ':' ∧
        (t.data.get? (t.length - ct.length - 1) = some ' ' ∨
          t.data.get? (t.length - ct.length - 1) = some '\n'))
    · rw [if_pos hcond]
      have hb : hasWrappingSeparator t ct = true :=
        (hasWrappingSeparator_iff t ct).mpr hcond
      have htn : (wrappingMessageEndIndex t ct).toNat = t.length - ct.length - 2 := by
        unfold wrappingMessageEndIndex
        omega
      simp only [unwrapErrorM, hc, hb, if_true, wrappingMessagePart, htn]
    · rw [if_neg hcond]
      have hb : hasWrappingSeparator t ct = false := by
        cases hbb : hasWrappingSeparator t ct with
        | false => rfl
        | true => exact absurd ((hasWrappingSeparator_iff t ct).mp hbb) hcond
      simp [unwrapErrorM, hc, hb]
  · rfl

/-- Witness for C1: a concrete foreign error "a: xy" wrapping "xy" splits
into label "a" with the wrapping flag set. -/
theorem unwrapError_colon_heuristic_witness :
    unwrapErrorM (.foreignSingle "a: xy" (some (.plain "xy"))) =
      some (some (.plain "xy"), "a", true) := by
  have h := unwrapError_colon_heuristic.1 "a: xy" "xy" (.plain "xy") rfl
  rw [h, if_pos ⟨by decide, ⟨"a: ".data, by decide⟩, by decide, Or.inl (by decide)⟩]
  rfl

/-- C2: rendering a single-cause wrap yields exactly the message, then
`"\n- "`, then the body rendered for the cause; and the continuation
indentation applied to embedded newlines of the root message is that of
indent level 0, i.e. the root message appears verbatim. -/
theorem render_single_wrap_shape (cause : Err) (msg : String) :
    (∀ s, writeErrorListItem (some cause) 1 false = some s →
      ∃ body, s = "\n- " ++ body ∧
        BuildWrappedErrorString (some cause) msg = some (msg ++ "\n- " ++ body)) ∧
    writeErrorMessage msg 0 = msg := by
  constructor
  · intro s h
    obtain ⟨body, rfl⟩ := writeErrorListItem_marker (some cause) 1 false s h
    refine ⟨body, rfl, ?_⟩
    rw [BuildWrappedErrorString, h]
    simp only [Option.map_some', Option.some.injEq]
    rw [show writeListItemMarker 1 = "\n- " from rfl, String.append_assoc]
  · show String.mk (indentNewlines msg.data (writeIndent 1).data) = msg
    rw [show (writeIndent 1).data = [] from rfl, indentNewlines_nil_sep]

/-- Witness for C2 at the library's own first test case. -/
theorem render_single_wrap_shape_witness :
    ∃ body, "\n- error" = "\n- " ++ body ∧
      BuildWrappedErrorString (some (.plain "error")) "wrapped error" =
        some ("wrapped error" ++ "\n- " ++ body) :=
  (render_single_wrap_shape (.plain "error") "wrapped error").1 "\n- error" rfl

/-- C4: when classification marks a node's label as not a wrapping message
(flag false), the rendered list item is exactly the marker plus the
reflowed label: nothing of any structural child reaches the output. -/
theorem unwrapped_label_stops_descent (e : Err) (ind : Nat) (part : Bool) :
    (∀ w m, unwrapErrorM e = some (w, m, false) →
      writeErrorListItem (some e) ind part =
        some (writeListItemMarker ind ++ writeErrorMessage m ind)) ∧
    (∀ ws m, unwrapErrorsM e = some (ws, m, false) →
      writeErrorListItem (some e) ind part =
        some (writeListItemMarker ind ++ writeErrorMessage m ind)) := by
  constructor
  · intro w m h
    simpa using writeErrorListItem_of_unwrapError e w m false ind part h
  · intro ws m h
    simpa using writeErrorListItem_of_unwrapErrors e ws m false ind part h

/-- Witness for C4: a foreign error carrying a structural child that the
heuristic cannot split renders as its opaque label only. -/
theorem unwrapped_label_stops_descent_witness :
    writeErrorListItem (some (.foreignSingle "abc" (some (.plain "zz")))) 1 false =
      some "\n- abc" := by
  have h := (unwrapped_label_stops_descent (.foreignSingle "abc" (some (.plain "zz"))) 1
      false).1 (some (.plain "zz")) "abc" rfl
  rw [h]
  rfl

/-- C5: a library multi-cause node rendered at indent `ind` with sibling
flag `part` renders its children at `ind + 1` when `part` is set or there
is more than one child, at `ind` otherwise; with zero children only the
label line is emitted. -/
theorem multi_wrap_child_indent (ws : List (Option Err)) (m : String)
    (attrs : List SlogAttr) (ind : Nat) (part : Bool) :
    (writeErrorListItem (some (.wrappedErrors ws m)) ind part =
      (writeErrorList ws (if part = true ∨ 1 < ws.length then ind + 1 else ind)).map
        (fun rest => writeListItemMarker ind ++ writeErrorMessage m ind ++ rest)) ∧
    (writeErrorListItem (some (.wrappedErrorsWithAttrs ws m attrs)) ind part =
      (writeErrorList ws (if part = true ∨ 1 < ws.length then ind + 1 else ind)).map
        (fun rest => writeListItemMarker ind ++ writeErrorMessage m ind ++ rest)) ∧
    (writeErrorListItem (some (.wrappedErrors [] m)) ind part =
      some (writeListItemMarker ind ++ writeErrorMessage m ind)) ∧
    (writeErrorListItem (some (.wrappedErrorsWithAttrs [] m attrs)) ind part =
      some (writeListItemMarker ind ++ writeErrorMessage m ind)) := by
  have hcond : ∀ n k : Nat, (if part = true ∨ 1 < ws.length then n else k) =
      (if (part || decide (ws.length > 1)) = true then n else k) := by
    intro n k
    by_cases hp : part = true ∨ 1 < ws.length
    · rw [if_pos hp, if_pos (by simpa using hp)]
    · rw [if_neg hp, if_neg (by simpa using hp)]
  refine ⟨?_, ?_, ?_, ?_⟩
  · rw [writeErrorList, hcond]
    simp [writeErrorListItem]
  · rw [writeErrorList, hcond]
    simp [writeErrorListItem]
  · simp [writeErrorListItem, writeErrorItems, String.append_empty]
  · simp [writeErrorListItem, writeErrorItems, String.append_empty]

/-- C6: wrapping one cause through the multi-cause wrapper renders exactly
as wrapping it through the single-cause wrapper, at every indent level and
sibling flag (in particular the indentation never gets deeper), and the
two top-level builders agree as well. -/
theorem singleton_multi_eq_single_wrap (w : Option Err) (m : String) (ind : Nat)
    (part : Bool) :
    writeErrorListItem (some (.wrappedErrors [w] m)) ind part =
      writeErrorListItem (some (.wrappedError w m)) ind part ∧
    BuildWrappedErrorsString [w] m = BuildWrappedErrorString w m := by
  have key : ∀ ind', writeErrorItems [w] ind' false = writeErrorListItem w ind' false := by
    intro ind'
    show (match writeErrorListItem w ind' false, writeErrorItems [] ind' false with
      | some s, some t => some (s ++ t)
      | _, _ => none) = writeErrorListItem w ind' false
    cases h : writeErrorListItem w ind' false <;>
      simp [h, writeErrorItems, String.append_empty]
  constructor
  · simp only [writeErrorListItem, List.length_cons, List.length_nil]
    norm_num
    rw [key]
  · show (writeErrorItems [w] 1 (decide ([w].length > 1))).map (fun rest => m ++ rest) =
      (writeErrorListItem w 1 false).map (fun rest => m ++ rest)
    norm_num
    rw [key]

/-- C8: the attribute parser scans left to right: a pre-built attr is taken
verbatim, a string pairs with the following item, a trailing string or a
non-string item degrades to the `!BADKEY` sentinel; it is a total function
(never fails), and the two spec examples evaluate as stated. -/
theorem parseAttrs_scan_spec :
    (ParseAttrs [] = []) ∧
    (∀ k v rest, ParseAttrs (.attr k v :: rest) = (k, v) :: ParseAttrs rest) ∧
    (∀ s next rest, ParseAttrs (.str s :: next :: rest) = (s, next) :: ParseAttrs rest) ∧
    (∀ s, ParseAttrs [.str s] = [(badKey, .str s)]) ∧
    (∀ n rest, ParseAttrs (.int n :: rest) = (badKey, .int n) :: ParseAttrs rest) ∧
    (∀ i rest, ParseAttrs (.other i :: rest) = (badKey, .other i) :: ParseAttrs rest) ∧
    ParseAttrs [.str "key1", .str "value1", .attr "key2" (.int 2)] =
      [("key1", .str "value1"), ("key2", .int 2)] ∧
    ParseAttrs [.str "onlykey"] = [(badKey, .str "onlykey")] :=
  ⟨rfl, fun _ _ _ => rfl, fun _ _ _ => rfl, fun _ => rfl, fun _ _ => rfl,
    fun _ _ => rfl, rfl, rfl⟩

/-- C9: every value built by the library's own wrap constructors is
classified through the explicit-label path: the constructor's message is
the label, the wrapped cause(s) are returned unchanged and in order, and
the flag is true, for every message whatsoever (so the colon heuristic is
never consulted). -/
theorem library_wrappers_explicit_label (w : Option Err) (ws : List (Option Err))
    (m : String) (attrs : List SlogAttr) :
    unwrapErrorM (.wrappedError w m) = some (w, m, true) ∧
    unwrapErrorM (.wrappedErrorWithAttrs w m attrs) = some (w, m, true) ∧
    unwrapErrorsM (.wrappedErrors ws m) = some (ws, m, true) ∧
    unwrapErrorsM (.wrappedErrorsWithAttrs ws m attrs) = some (ws, m, true) :=
  ⟨rfl, rfl, rfl, rfl⟩

theorem sizeE_pos (e : Err) : 1 ≤ sizeE e := by
  cases e <;> simp [sizeE]

theorem sizeO_pos (w : Option Err) : 1 ≤ sizeO w := by
  cases w <;> simp [sizeO]

theorem sizeL_pos (ws : List (Option Err)) : 1 ≤ sizeL ws := by
  cases ws with
  | nil => simp [sizeL]
  | cons w rest => simp [sizeL]; omega

/-- Rendering succeeds on every nil-free tree; proved by induction on the
tree size, simultaneously for `errText`, `writeErrorListItem` and
`writeErrorItems`. -/
theorem render_total_aux : ∀ n : Nat,
    (∀ e, sizeE e ≤ n → noNil e = true → (errText e).isSome = true) ∧
    (∀ w ind part, sizeO w ≤ n → noNilOpt w = true →
      (writeErrorListItem w ind part).isSome = true) ∧
    (∀ ws ind part, sizeL ws ≤ n → noNilList ws = true →
      (writeErrorItems ws ind part).isSome = true) := by
  intro n
  induction n with
  | zero =>
    refine ⟨fun e he _ => absurd he (by have := sizeE_pos e; omega),
            fun w _ _ hw _ => absurd hw (by have := sizeO_pos w; omega),
            fun ws _ _ hws _ => absurd hws (by have := sizeL_pos ws; omega)⟩
  | succ n ih =>
    obtain ⟨ihE, ihI, ihL⟩ := ih
    refine ⟨?_, ?_, ?_⟩
    · intro e hsize hnil
      cases e with
      | wrappedError w m =>
        have hw : sizeO w ≤ n := by simp [sizeE] at hsize; omega
        have hr := ihI w 1 false hw (by simpa [noNil] using hnil)
        simpa [errText, Option.isSome_map'] using hr
      | wrappedErrorWithAttrs w m attrs =>
        have hw : sizeO w ≤ n := by simp [sizeE] at hsize; omega
        have hr := ihI w 1 false hw (by simpa [noNil] using hnil)
        simpa [errText, Option.isSome_map'] using hr
      | wrappedErrors ws m =>
        have hw : sizeL ws ≤ n := by simp [sizeE] at hsize; omega
        have hr := ihL ws 1 (decide (ws.length > 1)) hw (by simpa [noNil] using hnil)
        simpa [errText, Option.isSome_map'] using hr
      | wrappedErrorsWithAttrs ws m attrs =>
        have hw : sizeL ws ≤ n := by simp [sizeE] at hsize; omega
        have hr := ihL ws 1 (decide (ws.length > 1)) hw (by simpa [noNil] using hnil)
        simpa [errText, Option.isSome_map'] using hr
      | errorWithAttrs m attrs => simp [errText]
      | foreignSingle t w => simp [errText]
      | foreignMulti t ws => simp [errText]
      | plain t => simp [errText]
    · intro w ind part hsize hnil
      cases w with
      | none => simp [noNilOpt] at hnil
      | some e =>
        cases e with
        | wrappedError w' m =>
          have hw : sizeO w' ≤ n := by simp [sizeO, sizeE] at hsize; omega
          have hr := ihI w' (if part then ind + 1 else ind) false hw
            (by simpa [noNilOpt, noNil] using hnil)
          simpa [writeErrorListItem, Option.isSome_map'] using hr
        | wrappedErrorWithAttrs w' m attrs =>
          have hw : sizeO w' ≤ n := by simp [sizeO, sizeE] at hsize; omega
          have hr := ihI w' (if part then ind + 1 else ind) false hw
            (by simpa [noNilOpt, noNil] using hnil)
          simpa [writeErrorListItem, Option.isSome_map'] using hr
        | foreignSingle t wopt =>
          cases wopt with
          | none => simp [writeErrorListItem]
          | some c =>
            have hc' : noNil c = true := by simpa [noNilOpt, noNil] using hnil
            have hce : sizeE c ≤ n := by simp [sizeO, sizeE] at hsize; omega
            obtain ⟨ct, hct⟩ := Option.isSome_iff_exists.mp (ihE c hce hc')
            by_cases hsep : hasWrappingSeparator t ct
            · have hco : sizeO (some c) ≤ n := by simp [sizeO, sizeE] at hsize ⊢; omega
              have hr := ihI (some c) (if part then ind + 1 else ind) false hco
                (by simpa [noNilOpt] using hc')
              simpa [writeErrorListItem, hct, hsep, Option.isSome_map'] using hr
            · simp [writeErrorListItem, hct, hsep]
        | wrappedErrors ws m =>
          have hw : sizeL ws ≤ n := by simp [sizeO, sizeE] at hsize; omega
          have hr := ihL ws (if part || decide (ws.length > 1) then ind + 1 else ind)
            (decide (ws.length > 1)) hw (by simpa [noNilOpt, noNil] using hnil)
          simpa [writeErrorListItem, Option.isSome_map'] using hr
        | wrappedErrorsWithAttrs ws m attrs =>
          have hw : sizeL ws ≤ n := by simp [sizeO, sizeE] at hsize; omega
          have hr := ihL ws (if part || decide (ws.length > 1) then ind + 1 else ind)
            (decide (ws.length > 1)) hw (by simpa [noNilOpt, noNil] using hnil)
          simpa [writeErrorListItem, Option.isSome_map'] using hr
        | foreignMulti t ws => simp [writeErrorListItem]
        | errorWithAttrs m attrs => simp [writeErrorListItem]
        | plain t => simp [writeErrorListItem]
    · intro ws ind part hsize hnil
      cases ws with
      | nil => simp [writeErrorItems]
      | cons w rest =>
        have hw : sizeO w ≤ n := by simp [sizeL] at hsize; have := sizeL_pos rest; omega
        have hrest : sizeL rest ≤ n := by
          simp [sizeL] at hsize; have := sizeO_pos w; omega
        have hn : noNilOpt w = true ∧ noNilList rest = true := by
          simpa [noNilList, Bool.and_eq_true] using hnil
        obtain ⟨s1, hs1⟩ := Option.isSome_iff_exists.mp (ihI w ind part hw hn.1)
        obtain ⟨s2, hs2⟩ := Option.isSome_iff_exists.mp (ihL rest ind part hrest hn.2)
        simp [writeErrorItems, hs1, hs2]

/-- C3 counterexample: the library's single-cause wrap of a nil error, and
the multi-cause wrap with a nil entry, both panic when rendered (the type
switch's default branch calls `Error()` on a nil interface value), so
`Error()` does not return a string there. -/
theorem render_nil_cause_panics :
    errText (.wrappedError none "wrapped error") = none ∧
    errText (.wrappedErrors [none] "wrapped errors") = none :=
  ⟨rfl, rfl⟩

/-- C3 (amended): for every error value built from the library's wrap
constructors whose wrapped causes are transitively non-nil, `Error()`
never fails and returns a string. -/
theorem render_total_of_noNil (e : Err) (h : noNil e = true) :
    ∃ s, errText e = some s :=
  Option.isSome_iff_exists.mp ((render_total_aux (sizeE e)).1 e le_rfl h)

/-- Witness for C3 at the library's first test case. -/
theorem render_total_of_noNil_witness :
    noNil (.wrappedError (some (.plain "error")) "wrapped error") = true ∧
    ∃ s, errText (.wrappedError (some (.plain "error")) "wrapped error") = some s :=
  ⟨rfl, render_total_of_noNil (.wrappedError (some (.plain "error")) "wrapped error") rfl⟩

theorem flatten_replicate_pair (k : Nat) :
    (List.replicate k [' ', ' ']).flatten = List.replicate (2 * k) ' ' := by
  induction k with
  | zero => rfl
  | succ k ih =>
    rw [List.replicate_succ, List.flatten_cons, ih,
      show 2 * (k + 1) = 2 + 2 * k from by omega, List.replicate_add]
    rfl

theorem writeIndent_data (n : Nat) :
    (writeIndent n).data = List.replicate (2 * (n - 1)) ' ' := by
  rw [writeIndent, String.join_eq]
  show ((List.replicate (n - 1) "  ").map String.data).flatten = _
  rw [List.map_replicate]
  exact flatten_replicate_pair (n - 1)

theorem writeListItemMarker_data (ind : Nat) :
    (writeListItemMarker ind).data =
      '\n' :: (List.replicate (2 * (ind - 1)) ' ' ++ ['-', ' ']) := by
  rw [writeListItemMarker, String.data_append, String.data_append, writeIndent_data,
    show ("\n").data = ['\n'] from rfl, show ("- ").data = ['-', ' '] from rfl]
  simp

theorem marker_getLast (ind : Nat) :
    (writeListItemMarker ind).data.getLast? = some ' ' := by
  rw [writeListItemMarker_data,
    show '\n' :: (List.replicate (2 * (ind - 1)) ' ' ++ ['-', ' ']) =
      ('\n' :: (List.replicate (2 * (ind - 1)) ' ' ++ ['-'])) ++ [' '] by simp]
  exact List.getLast?_concat _

theorem indentNewlines_append (a b sep : List Char) :
    indentNewlines (a ++ b) sep = indentNewlines a sep ++ indentNewlines b sep := by
  induction a with
  | nil => rfl
  | cons c rest ih => by_cases hc : c = '\n' <;> simp [indentNewlines, hc, ih]

theorem indentNewlines_of_no_newline (l sep : List Char) (h : ∀ c ∈ l, c ≠ '\n') :
    indentNewlines l sep = l := by
  induction l with
  | nil => rfl
  | cons c rest ih =>
    have hc : c ≠ '\n' := h c (by simp)
    simp [indentNewlines, hc, ih (fun d hd => h d (by simp [hd]))]

theorem indentNewlines_ne_nil (l sep : List Char) (h : l ≠ []) :
    indentNewlines l sep ≠ [] := by
  cases l with
  | nil => cases h rfl
  | cons c rest => by_cases hc : c = '\n' <;> simp [indentNewlines, hc]

theorem indentNewlines_getLast (l sep : List Char) (hsep : sep ≠ [])
    (hlast : ∀ x, sep.getLast? = some x → x ≠ '\n') :
    l ≠ [] → ∀ x, (indentNewlines l sep).getLast? = some x → x ≠ '\n' := by
  induction l with
  | nil => intro hne; cases hne rfl
  | cons c rest ih =>
    intro _
    cases rest with
    | nil =>
      by_cases hc : c = '\n'
      · subst hc
        intro x hx
        rw [show indentNewlines ['\n'] sep = ['\n'] ++ sep by simp [indentNewlines],
          List.getLast?_append_of_ne_nil _ hsep] at hx
        exact hlast x hx
      · intro x hx
        rw [show indentNewlines [c] sep = [c] by simp [indentNewlines, hc]] at hx
        simp at hx
        rw [← hx]
        exact hc
    | cons c2 rest2 =>
      have hrecne : indentNewlines (c2 :: rest2) sep ≠ [] :=
        indentNewlines_ne_nil _ _ (by simp)
      by_cases hc : c = '\n'
      · intro x hx
        rw [show indentNewlines (c :: c2 :: rest2) sep =
            (c :: sep) ++ indentNewlines (c2 :: rest2) sep by
              simp [indentNewlines, hc],
          List.getLast?_append_of_ne_nil _ hrecne] at hx
        exact ih (by simp) x hx
      · intro x hx
        rw [show indentNewlines (c :: c2 :: rest2) sep =
            [c] ++ indentNewlines (c2 :: rest2) sep by simp [indentNewlines, hc],
          List.getLast?_append_of_ne_nil _ hrecne] at hx
        exact ih (by simp) x hx

/-- A rendered list item's text (marker plus reflowed label) is nonempty
and does not end in a newline, at any indent level of at least 1. -/
theorem item_ends_ok (label : String) (ind : Nat) (hind : 1 ≤ ind) :
    (writeListItemMarker ind ++ writeErrorMessage label ind).data ≠ [] ∧
    ∀ x, (writeListItemMarker ind ++ writeErrorMessage label ind).data.getLast? = some x →
      x ≠ '\n' := by
  rw [String.data_append]
  have hsepdata : (writeIndent (ind + 1)).data = List.replicate (2 * ind) ' ' := by
    rw [writeIndent_data]
    rfl
  have hsepne : (writeIndent (ind + 1)).data ≠ [] := by
    rw [hsepdata]
    simp
    omega
  have hseplast : ∀ x, (writeIndent (ind + 1)).data.getLast? = some x → x ≠ '\n' := by
    intro x hx
    rw [hsepdata, List.getLast?_replicate, if_neg (by omega : ¬2 * ind = 0)] at hx
    simp at hx
    rw [← hx]
    decide
  constructor
  · simp [writeListItemMarker_data]
  · intro x hx
    by_cases hl : label.data = []
    · rw [show (writeErrorMessage label ind).data =
          indentNewlines label.data (writeIndent (ind + 1)).data from rfl, hl] at hx
      rw [show indentNewlines [] (writeIndent (ind + 1)).data = [] from rfl,
        List.append_nil, marker_getLast] at hx
      simp at hx
      rw [← hx]
      decide
    · have hwne : (writeErrorMessage label ind).data ≠ [] :=
        indentNewlines_ne_nil _ _ hl
      rw [List.getLast?_append_of_ne_nil _ hwne] at hx
      exact indentNewlines_getLast label.data (writeIndent (ind + 1)).data hsepne
        hseplast hl x hx

/-- Rendered items and item lists are nonempty and never end in a newline;
proved by induction on tree size. -/
theorem ends_ok_aux : ∀ n : Nat,
    (∀ w ind part s, sizeO w ≤ n → 1 ≤ ind → writeErrorListItem w ind part = some s →
      s.data ≠ [] ∧ ∀ x, s.data.getLast? = some x → x ≠ '\n') ∧
    (∀ ws ind part s, sizeL ws ≤ n → 1 ≤ ind → writeErrorItems ws ind part = some s →
      (∀ x, s.data.getLast? = some x → x ≠ '\n') ∧ (ws ≠ [] → s.data ≠ [])) := by
  intro n
  induction n with
  | zero =>
    refine ⟨fun w _ _ _ hw _ _ => absurd hw (by have := sizeO_pos w; omega),
            fun ws _ _ _ hws _ _ => absurd hws (by have := sizeL_pos ws; omega)⟩
  | succ n ih =>
    obtain ⟨ihI, ihL⟩ := ih
    have hindStep : ∀ (ind : Nat) (part : Bool), 1 ≤ ind →
        1 ≤ (if part then ind + 1 else ind) := by
      intro ind part h
      split <;> omega
    have recCase : ∀ (label : String) (ind : Nat) (rest : String), 1 ≤ ind →
        rest.data ≠ [] → (∀ x, rest.data.getLast? = some x → x ≠ '\n') →
        ((writeListItemMarker ind ++ writeErrorMessage label ind ++ rest).data ≠ [] ∧
          ∀ x, (writeListItemMarker ind ++ writeErrorMessage label ind ++
            rest).data.getLast? = some x → x ≠ '\n') := by
      intro label ind rest hind hne hlast
      rw [String.data_append]
      constructor
      · simp [hne]
      · intro x hx
        rw [List.getLast?_append_of_ne_nil _ hne] at hx
        exact hlast x hx
    have stopCase : ∀ (label : String) (ind : Nat) (s : String), 1 ≤ ind →
        some (writeListItemMarker ind ++ writeErrorMessage label ind) = some s →
        (s.data ≠ [] ∧ ∀ x, s.data.getLast? = some x → x ≠ '\n') := by
      intro label ind s hind hs
      rw [Option.some.injEq] at hs
      rw [← hs]
      exact item_ends_ok label ind hind
    have listCase : ∀ (label : String) (ind : Nat) (rest : String), 1 ≤ ind →
        (∀ x, rest.data.getLast? = some x → x ≠ '\n') →
        ((writeListItemMarker ind ++ writeErrorMessage label ind ++ rest).data ≠ [] ∧
          ∀ x, (writeListItemMarker ind ++ writeErrorMessage label ind ++
            rest).data.getLast? = some x → x ≠ '\n') := by
      intro label ind rest hind hlast
      by_cases hrd : rest.data = []
      · rw [String.data_append, hrd, List.append_nil]
        exact item_ends_ok label ind hind
      · rw [String.data_append]
        constructor
        · simp [hrd]
        · intro x hx
          rw [List.getLast?_append_of_ne_nil _ hrd] at hx
          exact hlast x hx
    refine ⟨?_, ?_⟩
    · intro w ind part s hsize hind hs
      cases w with
      | none => simp [writeErrorListItem] at hs
      | some e =>
        cases e with
        | wrappedError w' m =>
          simp only [writeErrorListItem, Option.map_eq_some'] at hs
          obtain ⟨rest, hrest, rfl⟩ := hs
          have hw : sizeO w' ≤ n := by simp [sizeO, sizeE] at hsize; omega
          obtain ⟨hne, hlast⟩ := ihI w' _ false rest hw (hindStep ind part hind) hrest
          exact recCase m ind rest hind hne hlast
        | wrappedErrorWithAttrs w' m attrs =>
          simp only [writeErrorListItem, Option.map_eq_some'] at hs
          obtain ⟨rest, hrest, rfl⟩ := hs
          have hw : sizeO w' ≤ n := by simp [sizeO, sizeE] at hsize; omega
          obtain ⟨hne, hlast⟩ := ihI w' _ false rest hw (hindStep ind part hind) hrest
          exact recCase m ind rest hind hne hlast
        | foreignSingle t wopt =>
          cases wopt with
          | none => exact stopCase t ind s hind (by simpa [writeErrorListItem] using hs)
          | some c =>
            cases hct : errText c with
            | none => simp [writeErrorListItem, hct] at hs
            | some ct =>
              by_cases hsep : hasWrappingSeparator t ct
              · simp only [writeErrorListItem, hct, hsep, if_true,
                  Option.map_eq_some'] at hs
                obtain ⟨rest, hrest, rfl⟩ := hs
                have hco : sizeO (some c) ≤ n := by
                  simp [sizeO, sizeE] at hsize ⊢; omega
                obtain ⟨hne, hlast⟩ := ihI (some c) _ false rest hco
                  (hindStep ind part hind) hrest
                exact recCase (wrappingMessagePart t ct) ind rest hind hne hlast
              · refine stopCase t ind s hind ?_
                simpa [writeErrorListItem, hct, hsep] using hs
        | wrappedErrors ws m =>
          simp only [writeErrorListItem, Option.map_eq_some'] at hs
          obtain ⟨rest, hrest, rfl⟩ := hs
          have hw : sizeL ws ≤ n := by simp [sizeO, sizeE] at hsize; omega
          have hind2 : 1 ≤ (if (part || decide (ws.length > 1)) = true
              then ind + 1 else ind) := by split <;> omega
          obtain ⟨hlast, -⟩ := ihL ws _ (decide (ws.length > 1)) rest hw hind2 hrest
          exact listCase m ind rest hind hlast
        | wrappedErrorsWithAttrs ws m attrs =>
          simp only [writeErrorListItem, Option.map_eq_some'] at hs
          obtain ⟨rest, hrest, rfl⟩ := hs
          have hw : sizeL ws ≤ n := by simp [sizeO, sizeE] at hsize; omega
          have hind2 : 1 ≤ (if (part || decide (ws.length > 1)) = true
              then ind + 1 else ind) := by split <;> omega
          obtain ⟨hlast, -⟩ := ihL ws _ (decide (ws.length > 1)) rest hw hind2 hrest
          exact listCase m ind rest hind hlast
        | foreignMulti t ws =>
          exact stopCase t ind s hind (by simpa [writeErrorListItem] using hs)
        | errorWithAttrs m attrs =>
          exact stopCase m ind s hind (by simpa [writeErrorListItem] using hs)
        | plain t =>
          exact stopCase t ind s hind (by simpa [writeErrorListItem] using hs)
    · intro ws ind part s hsize hind hs
      cases ws with
      | nil =>
        simp only [writeErrorItems, Option.some.injEq] at hs
        rw [← hs]
        exact ⟨fun x hx => by simp at hx, fun hne => absurd rfl hne⟩
      | cons w rest =>
        have hw : sizeO w ≤ n := by
          simp [sizeL] at hsize; have := sizeL_pos rest; omega
        have hrest : sizeL rest ≤ n := by
          simp [sizeL] at hsize; have := sizeO_pos w; omega
        cases h1 : writeErrorListItem w ind part with
        | none => rw [writeErrorItems, h1] at hs; simp at hs
        | some s1 =>
          cases h2 : writeErrorItems rest ind part with
          | none => rw [writeErrorItems, h1, h2] at hs; simp at hs
          | some s2 =>
            rw [writeErrorItems, h1, h2, Option.some.injEq] at hs
            rw [← hs, String.data_append]
            obtain ⟨hne1, hlast1⟩ := ihI w ind part s1 hw hind h1
            obtain ⟨hlast2, -⟩ := ihL rest ind part s2 hrest hind h2
            constructor
            · intro x hx
              by_cases h2d : s2.data = []
              · rw [h2d, List.append_nil] at hx
                exact hlast1 x hx
              · rw [List.getLast?_append_of_ne_nil _ h2d] at hx
                exact hlast2 x hx
            · intro _
              simp [hne1]

/-- C7 counterexample: a multi-cause wrap of an empty cause list whose
message ends in a newline renders as that message verbatim, so the output
does end with a trailing newline, contradicting the claim's final clause. -/
theorem empty_multi_wrap_trailing_newline :
    BuildWrappedErrorsString [] "a\n" = some "a\n" ∧
    ("a\n").data.getLast? = some '\n' :=
  ⟨rfl, rfl⟩

/-- C7 (amended): the output shape. The root label is written verbatim
with no marker; a list item line starts with a newline, `indentLevel - 1`
two-space units and `"- "`; a label without newlines is written as is and
an embedded newline is followed by `indentLevel` two-space units; and the
whole result never ends in a newline, except that a zero-cause multi-wrap
renders its root label verbatim, so a root label ending in a newline
survives in that one case (the final clause is therefore stated for
single-cause wraps, and for multi-cause wraps with a nonempty cause
list). -/
theorem output_shape_spec :
    (∀ w m, BuildWrappedErrorString w m =
      (writeErrorListItem w 1 false).map (fun rest => m ++ rest)) ∧
    (∀ ws m, BuildWrappedErrorsString ws m =
      (writeErrorList ws 1).map (fun rest => m ++ rest)) ∧
    (∀ ind, (writeListItemMarker ind).data =
      '\n' :: (List.replicate (2 * (ind - 1)) ' ' ++ ['-', ' '])) ∧
    (∀ m ind, (∀ c ∈ m.data, c ≠ '\n') → writeErrorMessage m ind = m) ∧
    (∀ m1 m2 ind, writeErrorMessage (m1 ++ "\n" ++ m2) ind =
      writeErrorMessage m1 ind ++ "\n" ++
        String.mk (List.replicate (2 * ind) ' ') ++ writeErrorMessage m2 ind) ∧
    (∀ w m s, BuildWrappedErrorString w m = some s →
      ∀ x, s.data.getLast? = some x → x ≠ '\n') ∧
    (∀ ws m s, ws ≠ [] → BuildWrappedErrorsString ws m = some s →
      ∀ x, s.data.getLast? = some x → x ≠ '\n') := by
  refine ⟨fun w m => rfl, fun ws m => rfl, writeListItemMarker_data, ?_, ?_, ?_, ?_⟩
  · intro m ind h
    rw [writeErrorMessage, indentNewlines_of_no_newline _ _ h]
  · intro m1 m2 ind
    apply String.ext
    simp only [writeErrorMessage, String.data_append, indentNewlines_append]
    rw [writeIndent_data, show (ind + 1) - 1 = ind from rfl]
    simp [indentNewlines, List.append_assoc]
  · intro w m s hs x hx
    rw [BuildWrappedErrorString] at hs
    rw [Option.map_eq_some'] at hs
    obtain ⟨rest, hrest, rfl⟩ := hs
    obtain ⟨hne, hlast⟩ := (ends_ok_aux (sizeO w)).1 w 1 false rest le_rfl le_rfl hrest
    rw [String.data_append, List.getLast?_append_of_ne_nil _ hne] at hx
    exact hlast x hx
  · intro ws m s hws hs x hx
    rw [BuildWrappedErrorsString, Option.map_eq_some'] at hs
    obtain ⟨rest, hrest, rfl⟩ := hs
    obtain ⟨hlast, hne⟩ := (ends_ok_aux (sizeL ws)).2 ws 1 (decide (ws.length > 1))
      rest le_rfl le_rfl hrest
    rw [String.data_append, List.getLast?_append_of_ne_nil _ (hne hws)] at hx
    exact hlast x hx

/-- Witness for C7: the first test case's output does not end in a
newline. -/
theorem output_shape_spec_witness :
    ("wrapped error\n- error").data.getLast? ≠ some '\n' := fun hc =>
  output_shape_spec.2.2.2.2.2.1 (some (.plain "error")) "wrapped error"
    "wrapped error\n- error" rfl '\n' hc rfl

/-- C10: rendering terminates on every finite acyclic error tree with work
bounded by the size of the tree: the fuel-bounded renderer, given the
tree's node count as recursion budget, computes exactly the renderer's
result (`Err` values are finite, acyclic trees by construction, which is
the caller contract assumed by the Go code). -/
theorem render_fuel_bounded : ∀ fuel : Nat,
    (∀ e, sizeE e ≤ fuel → errTextFuel fuel e = some (errText e)) ∧
    (∀ w ind part, sizeO w ≤ fuel →
      itemFuel fuel w ind part = some (writeErrorListItem w ind part)) ∧
    (∀ ws ind part, sizeL ws ≤ fuel →
      itemsFuel fuel ws ind part = some (writeErrorItems ws ind part)) := by
  intro fuel
  induction fuel with
  | zero =>
    refine ⟨fun e he => absurd he (by have := sizeE_pos e; omega),
            fun w _ _ hw => absurd hw (by have := sizeO_pos w; omega),
            fun ws _ _ hws => absurd hws (by have := sizeL_pos ws; omega)⟩
  | succ fuel ih =>
    obtain ⟨ihE, ihI, ihL⟩ := ih
    refine ⟨?_, ?_, ?_⟩
    · intro e hsize
      cases e with
      | wrappedError w m =>
        have hw : sizeO w ≤ fuel := by simp [sizeE] at hsize; omega
        simp only [errTextFuel]
        rw [ihI w 1 false hw]
        simp [errText]
      | wrappedErrorWithAttrs w m attrs =>
        have hw : sizeO w ≤ fuel := by simp [sizeE] at hsize; omega
        simp only [errTextFuel]
        rw [ihI w 1 false hw]
        simp [errText]
      | wrappedErrors ws m =>
        have hw : sizeL ws ≤ fuel := by simp [sizeE] at hsize; omega
        simp only [errTextFuel]
        rw [ihL ws 1 (decide (ws.length > 1)) hw]
        simp [errText]
      | wrappedErrorsWithAttrs ws m attrs =>
        have hw : sizeL ws ≤ fuel := by simp [sizeE] at hsize; omega
        simp only [errTextFuel]
        rw [ihL ws 1 (decide (ws.length > 1)) hw]
        simp [errText]
      | errorWithAttrs m attrs => simp [errTextFuel, errText]
      | foreignSingle t w => simp [errTextFuel, errText]
      | foreignMulti t ws => simp [errTextFuel, errText]
      | plain t => simp [errTextFuel, errText]
    · intro w ind part hsize
      cases w with
      | none => simp [itemFuel, writeErrorListItem]
      | some e =>
        cases e with
        | wrappedError w' m =>
          have hw : sizeO w' ≤ fuel := by simp [sizeO, sizeE] at hsize; omega
          simp only [itemFuel]
          rw [ihI w' (if part then ind + 1 else ind) false hw]
          simp [writeErrorListItem]
        | wrappedErrorWithAttrs w' m attrs =>
          have hw : sizeO w' ≤ fuel := by simp [sizeO, sizeE] at hsize; omega
          simp only [itemFuel]
          rw [ihI w' (if part then ind + 1 else ind) false hw]
          simp [writeErrorListItem]
        | foreignSingle t wopt =>
          cases wopt with
          | none => simp [itemFuel, writeErrorListItem]
          | some c =>
            have hce : sizeE c ≤ fuel := by simp [sizeO, sizeE] at hsize; omega
            have hco : sizeO (some c) ≤ fuel := by
              simp [sizeO, sizeE] at hsize ⊢; omega
            simp only [itemFuel]
            rw [ihE c hce]
            cases hct : errText c with
            | none => simp [writeErrorListItem, hct]
            | some ct =>
              by_cases hsep : hasWrappingSeparator t ct
              · simp only [hsep, if_true]
                rw [ihI (some c) (if part then ind + 1 else ind) false hco]
                simp [writeErrorListItem, hct, hsep]
              · simp [writeErrorListItem, hct, hsep]
        | wrappedErrors ws m =>
          have hw : sizeL ws ≤ fuel := by simp [sizeO, sizeE] at hsize; omega
          simp only [itemFuel]
          rw [ihL ws (if part || decide (ws.length > 1) then ind + 1 else ind)
            (decide (ws.length > 1)) hw]
          simp [writeErrorListItem]
        | wrappedErrorsWithAttrs ws m attrs =>
          have hw : sizeL ws ≤ fuel := by simp [sizeO, sizeE] at hsize; omega
          simp only [itemFuel]
          rw [ihL ws (if part || decide (ws.length > 1) then ind + 1 else ind)
            (decide (ws.length > 1)) hw]
          simp [writeErrorListItem]
        | foreignMulti t ws => simp [itemFuel, writeErrorListItem]
        | errorWithAttrs m attrs => simp [itemFuel, writeErrorListItem]
        | plain t => simp [itemFuel, writeErrorListItem]
    · intro ws ind part hsize
      cases ws with
      | nil => simp [itemsFuel, writeErrorItems]
      | cons w rest =>
        have hw : sizeO w ≤ fuel := by
          simp [sizeL] at hsize; have := sizeL_pos rest; omega
        have hrest : sizeL rest ≤ fuel := by
          simp [sizeL] at hsize; have := sizeO_pos w; omega
        simp only [itemsFuel]
        rw [ihI w ind part hw, ihL rest ind part hrest]
        simp [writeErrorItems]

/-- Witness for C10: two units of fuel suffice for a single leaf. -/
theorem render_fuel_bounded_witness :
    errTextFuel 2 (.plain "e") = some (errText (.plain "e")) :=
  (render_fuel_bounded 2).1 (.plain "e") (by simp [sizeE])

end Wrap
